import Mathlib

/-!
Verification development for the gallery backend's thumbnail engine.

The embedding below translates the Go backend (`main.go`: constants,
`safePath`, `webpToSource`, `thumbPathFor`, `handleList`, `handleImage`,
`handleThumb`, `pregenThumb`, `generateThumb`, `doGenerateThumb`,
`generateImageThumb`, `generateVideoThumb`) into executable Lean
definitions.  Filesystem contents, codec outcomes and the external
ffmpeg process are passed explicitly as data; machine integers of the
source are nonnegative throughout the modelled code paths, so Nat with
Go's truncating division models them.
-/

/-! ## String helpers (models of the Go strings and path/filepath library calls) -/

/-- Model of testing that the second character list occurs at the start of
the first (Go strings.HasPrefix, on the underlying characters). -/
def listStartsWith : List Char → List Char → Bool
  | _, [] => true
  | [], _ :: _ => false
  | c :: cs, d :: ds => c == d && listStartsWith cs ds

/-- Model of substring containment (Go strings.Contains, on the underlying
characters): the second list occurs contiguously somewhere in the first. -/
def listContainsSub : List Char → List Char → Bool
  | [], sub => listStartsWith [] sub
  | c :: cs, sub => listStartsWith (c :: cs) sub || listContainsSub cs sub

/-- Go strings.Contains on strings. -/
def strContains (s sub : String) : Bool := listContainsSub s.data sub.data

/-- Go strings.HasPrefix on strings. -/
def strStarts (s pre : String) : Bool := listStartsWith s.data pre.data

/-- Go strings.HasSuffix on strings. -/
def strEnds (s suf : String) : Bool :=
  listStartsWith s.data.reverse suf.data.reverse

/-- Go strings.ToLower (ASCII, which is all the source uses it for). -/
def lowerStr (s : String) : String := String.mk (s.data.map Char.toLower)

/-- Go strings.ToUpper (ASCII, which is all the source uses it for). -/
def upperStr (s : String) : String := String.mk (s.data.map Char.toUpper)

/-- Go strings.TrimPrefix: drop the prefix when present, else return the
string unchanged. -/
def trimPrefixStr (s pre : String) : String :=
  if strStarts s pre then String.mk (s.data.drop pre.data.length) else s

/-- Go strings.TrimSuffix: drop the suffix when present, else return the
string unchanged. -/
def trimSuffix (s suf : String) : String :=
  if strEnds s suf then String.mk (s.data.take (s.data.length - suf.data.length)) else s

/-- Helper for splitting a character list at every slash. -/
def splitSlashAux (acc : List Char) : List Char → List String
  | [] => [String.mk acc.reverse]
  | c :: rest =>
    if c == '/' then String.mk acc.reverse :: splitSlashAux [] rest
    else splitSlashAux (c :: acc) rest

/-- Split a path string at every slash (Go strings.Split on "/"), keeping
empty fields. -/
def splitSlash (s : String) : List String := splitSlashAux [] s.data

/-- Join path elements with slashes (inverse direction of splitSlash; what
Go path joining does before lexical cleaning). -/
def joinSlash : List String → String
  | [] => ""
  | [x] => x
  | x :: y :: rest => x ++ "/" ++ joinSlash (y :: rest)

/-- Helper for Go filepath.Ext: scan the reversed character list of the
path; the extension starts at the first dot met before any slash. -/
def extRevAux : List Char → List Char → Option (List Char)
  | [], _ => none
  | c :: rest, acc =>
    if c == '/' then none
    else if c == '.' then some (c :: acc)
    else extRevAux rest (c :: acc)

/-- Go filepath.Ext: the suffix of the path beginning at the final dot in
the final slash-separated element, or empty when there is no dot. -/
def pathExt (p : String) : String :=
  match extRevAux p.data.reverse [] with
  | some cs => String.mk cs
  | none => ""

/-! ## Go filepath.Clean (Unix semantics) and the Path Resolver -/

/-- Element-stack core of Go filepath.Clean.  The first list is the stack of
already emitted elements, most recent first; the second is the remaining
input elements.  Empty and dot elements are dropped; a dotdot element pops a
poppable element, is dropped at the root of a rooted path, and is emitted for
a relative path that has run out of elements to pop (Go tracks the emitted
dotdots with its dotdot index; on the stack they sit below every ordinary
element, so an ordinary top is always the poppable one). -/
def cleanStack (rooted : Bool) : List String → List String → List String
  | stack, [] => stack
  | stack, e :: rest =>
    if e = "" ∨ e = "." then cleanStack rooted stack rest
    else if e = ".." then
      match stack with
      | [] => if rooted then cleanStack rooted [] rest
              else cleanStack rooted [".."] rest
      | top :: below =>
        if top = ".." then cleanStack rooted (".." :: top :: below) rest
        else cleanStack rooted below rest
    else cleanStack rooted (e :: stack) rest

/-- Go filepath.Clean on Unix: shortest lexically equivalent path.  An empty
input cleans to the dot path; a rooted result keeps its leading slash; a
fully cancelled relative path cleans to the dot path. -/
def filepathClean (p : String) : String :=
  if p = "" then "."
  else
    let rooted := strStarts p "/"
    let elems := (cleanStack rooted [] (splitSlash p)).reverse
    let out := joinSlash elems
    if rooted then (if out = "" then "/" else "/" ++ out)
    else (if out = "" then "." else out)

/-- Go filepath.IsAbs on Unix: the path starts with a slash. -/
def filepathIsAbs (p : String) : Bool := strStarts p "/"

/-- Go filepath.Join of two elements: empty elements are ignored, the rest
are joined with a slash and the result is cleaned. -/
def joinPath (a b : String) : String :=
  if a = "" ∧ b = "" then ""
  else if a = "" then filepathClean b
  else if b = "" then filepathClean a
  else filepathClean (a ++ "/" ++ b)

/-- Errors produced by safePath, one per Go error message (absolute paths
not allowed; path traversal not allowed).  Both surface to HTTP callers as
the invalid-path rejection. -/
inductive PathError
  | invalidAbs
  | invalidTraversal
deriving DecidableEq

deriving instance DecidableEq for Except

/-- Go safePath: validates and cleans a relative path, rejecting traversal
attempts.  Absolute inputs fail; the input is lexically cleaned, a dot
result becomes the empty root path, and any cleaned result containing the
two-character substring ".." fails; purely lexical (no filesystem access). -/
def safePath (rel : String) : Except PathError String :=
  if filepathIsAbs rel then .error .invalidAbs
  else
    let cleaned0 := filepathClean rel
    let cleaned := if cleaned0 = "." then "" else cleaned0
    if strContains cleaned ".." then .error .invalidTraversal
    else .ok cleaned

example : safePath "" = .ok "" := by decide
example : safePath "." = .ok "" := by decide
example : safePath "a/b/../c" = .ok "a/c" := by decide
example : safePath "../../etc" = .error .invalidTraversal := by decide
example : safePath "/etc/passwd" = .error .invalidAbs := by decide
example : safePath "a..b.jpg" = .error .invalidTraversal := by decide
example : filepathClean "/a/../.." = "/" := by decide
example : filepathClean "a/../../b" = "../b" := by decide
example : pathExt "dir/photo.webp" = ".webp" := by decide
example : pathExt "dir.d/photo" = "" := by decide
example : trimSuffix "photo.webp" ".webp" = "photo" := by decide
example : joinPath "./thumbs" "a/b.webp" = "thumbs/a/b.webp" := by decide

/-! ## Constants and extension sets from the Go source -/

/-- Constant from the Go source: target thumbnail width in pixels. -/
def thumbWidth : Nat := 300

/-- Constant from the Go source: capacity of the background worker
semaphore. -/
def maxWorkers : Nat := 4

/-- Constant from the Go source: webp encoder quality for images. -/
def webpQuality : Nat := 80

/-- Constant from the Go source: webp quality handed to ffmpeg for videos. -/
def videoQuality : Nat := 75

/-- Constant from the Go source: root of the source media tree. -/
def imagesDir : String := "./images"

/-- Constant from the Go source: root of the thumbnail tree. -/
def thumbsDir : String := "./thumbs"

/-- The image extension set of the Go source (a Go map used as a set; its
membership is order-irrelevant, its range-iteration order is not fixed). -/
def imageExts : List String := [".jpg", ".jpeg", ".png", ".gif", ".webp"]

/-- The video extension set of the Go source (same remarks as imageExts). -/
def videoExts : List String := [".mp4", ".mov", ".mkv", ".webm"]

/-! ## Source tree and the webpToSource resolver -/

/-- The source media tree as the set of existing file paths, relative to
imagesDir (what os.Stat under imagesDir observes). -/
abbrev SrcFs := List String

/-- Model of os.Stat success on the source tree for a relative path. -/
def srcStat (fs : SrcFs) (p : String) : Bool := fs.contains p

/-- One iteration of the webpToSource loop body for a single extension:
probe the lower-case candidate, then the upper-case candidate, on the
source tree. -/
def probeExt (fs : SrcFs) (base ext : String) : Option String :=
  let candidate := base ++ ext
  if srcStat fs candidate then some candidate
  else
    let upper := base ++ upperStr ext
    if srcStat fs upper then some upper else none

/-- One webpToSource range loop over a list of extensions, in the order the
Go map range happens to yield them: first probe that hits wins. -/
def probeList (fs : SrcFs) (base : String) : List String → Option String
  | [] => none
  | e :: rest =>
    match probeExt fs base e with
    | some c => some c
    | none => probeList fs base rest

/-- The base of a thumb-relative path: the path with its extension removed
(first line of Go webpToSource). -/
def sourceBase (webpRel : String) : String :=
  trimSuffix webpRel (pathExt webpRel)

/-- Go webpToSource: find the actual source file for a .webp thumb path by
probing image extensions (one Go map range), then video extensions (a
second range), lower-case then upper-case for each, returning the first
existing candidate and the empty string when none exists.  The two range
orders are passed explicitly because Go map iteration order is arbitrary;
faithful instantiations are permutations of imageExts and videoExts. -/
def webpToSource (imgOrder vidOrder : List String) (fs : SrcFs) (webpRel : String) : String :=
  let base := sourceBase webpRel
  match probeList fs base imgOrder with
  | some c => c
  | none =>
    match probeList fs base vidOrder with
    | some c => c
    | none => ""

/-- An extension hits when its lower-case or upper-case candidate exists on
the source tree (the condition under which the Go loop body returns). -/
def hitExt (fs : SrcFs) (base e : String) : Bool :=
  srcStat fs (base ++ e) || srcStat fs (base ++ upperStr e)

example : webpToSource imageExts videoExts ["photo.JPG"] "photo.webp" = "photo.JPG" := by decide
example : webpToSource imageExts videoExts ["vacation/photo.jpg"] "vacation/photo.webp" = "vacation/photo.jpg" := by decide
example : webpToSource imageExts videoExts ["clip.mp4", "clip.png"] "clip.webp" = "clip.png" := by decide
example : webpToSource imageExts videoExts ["other.jpg"] "photo.webp" = "" := by decide

/-! ## Thumbnail tree and the Codec Pipeline -/

/-- A decoded pixel buffer, abstracted to its dimensions (the resize and
encode steps of the source only depend on and determine these). -/
structure GoImage where
  width : Nat
  height : Nat
deriving DecidableEq

/-- The thumbnail tree as an association list from artifact path to the
image written there (most recent write first). -/
abbrev ThumbFs := List (String × GoImage)

/-- Model of os.Stat success on the thumbnail tree. -/
def thumbStat (fs : ThumbFs) (p : String) : Bool := fs.any (fun e => e.1 == p)

/-- Model of os.Create plus a completed write: the path now holds the given
image, replacing any previous file. -/
def thumbCreate (fs : ThumbFs) (p : String) (img : GoImage) : ThumbFs :=
  (p, img) :: fs.filter (fun e => !(e.1 == p))

/-- Model of os.Remove on the thumbnail tree. -/
def thumbRemove (fs : ThumbFs) (p : String) : ThumbFs :=
  fs.filter (fun e => !(e.1 == p))

/-- Model of reading the artifact stored at a path. -/
def thumbRead (fs : ThumbFs) (p : String) : Option GoImage :=
  (fs.find? (fun e => e.1 == p)).map (fun e => e.2)

/-- What image.Decode sees when the codec opens a source path. -/
inductive SrcContent
  | absent
  | corrupt
  | picture (w h : Nat)
deriving DecidableEq

/-- The environment of one generation attempt: the outcome of every
external effect the Go code performs (decoding each source path, os.Create,
webp.Encode, and the ffmpeg subprocess with whatever output file it wrote
before exiting). -/
structure CodecEnv where
  decode : String → SrcContent
  createOk : Bool
  encodeOk : Bool
  ffmpegOk : Bool
  ffmpegWrote : Option GoImage

/-- Typed generation errors, one per error return of the Go source. -/
inductive GenError
  | openSource
  | decodeImage
  | zeroWidth
  | createThumbFile
  | encodeWebp
  | ffmpegFailed
deriving DecidableEq

/-- Go generateImageThumb: open and decode the source (failing on a missing
or corrupt file), reject zero source width, compute the destination size
with Go integer division and the floor at one pixel, resample (dimension
preserving, abstracted), create the output file, and encode; an encode
failure removes the partially written file before returning the error. -/
def generateImageThumb (env : CodecEnv) (srcPath thumbPath : String) (fs : ThumbFs) :
    Except GenError Unit × ThumbFs :=
  match env.decode srcPath with
  | .absent => (.error .openSource, fs)
  | .corrupt => (.error .decodeImage, fs)
  | .picture srcW srcH =>
    if srcW = 0 then (.error .zeroWidth, fs)
    else
      let dstW := thumbWidth
      let dstH0 := srcH * thumbWidth / srcW
      let dstH := if dstH0 = 0 then 1 else dstH0
      if env.createOk then
        let fs1 := thumbCreate fs thumbPath ⟨dstW, dstH⟩
        if env.encodeOk then (.ok (), fs1)
        else (.error .encodeWebp, thumbRemove fs1 thumbPath)
      else (.error .createThumbFile, fs)

/-- Go generateVideoThumb: run ffmpeg, which may have written its output
file (wholly or partially) by the time it exits; a nonzero exit removes
whatever was written before returning the error. -/
def generateVideoThumb (env : CodecEnv) (thumbPath : String) (fs : ThumbFs) :
    Except GenError Unit × ThumbFs :=
  let fs1 := match env.ffmpegWrote with
    | some img => thumbCreate fs thumbPath img
    | none => fs
  if env.ffmpegOk then (.ok (), fs1)
  else (.error .ffmpegFailed, thumbRemove fs1 thumbPath)

/-- Go thumbPathFor: the thumbnail path for a source path, mirroring the
tree under thumbsDir with the extension replaced by .webp. -/
def thumbPathFor (rel : String) : String :=
  let ext := pathExt rel
  let base := trimSuffix rel ext
  joinPath thumbsDir (base ++ ".webp")

/-- Go doGenerateThumb: dispatch on the lower-cased source extension to the
video or the image pipeline (directory creation for the artifact's parent
is not represented: the thumbnail tree model stores files only). -/
def doGenerateThumb (env : CodecEnv) (rel thumbPath : String) (fs : ThumbFs) :
    Except GenError Unit × ThumbFs :=
  let srcPath := joinPath imagesDir rel
  let ext := lowerStr (pathExt rel)
  if videoExts.contains ext then generateVideoThumb env thumbPath fs
  else generateImageThumb env srcPath thumbPath fs

/-- Go generateThumb, sequential semantics of one call: under the per-file
lock (uncontended here; the interleaved semantics is the EnsureStep system
below), re-check existence and return success without doing work when the
artifact is present, else run doGenerateThumb.  The boolean in the result
records whether doGenerateThumb ran (the instrumentation the claims about
pipeline invocation refer to). -/
def generateThumb (env : CodecEnv) (rel : String) (fs : ThumbFs) :
    Except GenError Unit × ThumbFs × Bool :=
  let thumbPath := thumbPathFor rel
  if thumbStat fs thumbPath then (.ok (), fs, false)
  else
    let r := doGenerateThumb env rel thumbPath fs
    (r.1, r.2, true)

example :
    generateThumb ⟨fun _ => .picture 200 1, true, true, true, none⟩ "p.jpg" [] =
      (.ok (), [("thumbs/p.webp", ⟨300, 1⟩)], true) := by decide
example :
    generateThumb ⟨fun _ => .corrupt, true, true, true, none⟩ "p.jpg" [] =
      (.error .decodeImage, [], true) := by decide

/-! ## HTTP handlers (the parts the claims are about) -/

/-- One entry returned by os.ReadDir on one directory level. -/
structure DirEntry where
  name : String
  isDir : Bool
deriving DecidableEq

/-- The JSON body of a listing response (Go ListResponse). -/
structure ListResponse where
  directories : List String
  images : List String
  videos : List String
deriving DecidableEq

/-- Classification of the HTTP response a handler produces. -/
inductive HttpOutcome
  | badRequest
  | notFound
  | internalError
  | served (path : String)
  | jsonList (resp : ListResponse)
deriving DecidableEq

/-- The entry loop of Go handleList over one directory level's entries, in
filesystem order: dot-prefixed entries are skipped, directories are listed
by name, files whose lower-cased extension is a known image or video
extension are listed in their section, and each such file contributes its
joined relative path to the background pre-generation targets (one go
pregenThumb per target is spawned afterwards); other files are ignored. -/
def handleListEntries (rel : String) : List DirEntry → ListResponse × List String
  | [] => (⟨[], [], []⟩, [])
  | e :: rest =>
    let r := handleListEntries rel rest
    if strStarts e.name "." then r
    else if e.isDir then (⟨e.name :: r.1.directories, r.1.images, r.1.videos⟩, r.2)
    else
      let ext := lowerStr (pathExt e.name)
      let entryRel := joinPath rel e.name
      if imageExts.contains ext then
        (⟨r.1.directories, e.name :: r.1.images, r.1.videos⟩, entryRel :: r.2)
      else if videoExts.contains ext then
        (⟨r.1.directories, r.1.images, e.name :: r.1.videos⟩, entryRel :: r.2)
      else r

/-- Go handleList: validate the query path (rejecting with 400), read the
requested directory (404 when absent), and answer with the JSON produced by
the entry loop.  Reading one directory level is passed in as the readDir
capability. -/
def handleList (readDir : String → Option (List DirEntry)) (query : String) : HttpOutcome :=
  match safePath query with
  | .error _ => .badRequest
  | .ok rel =>
    match readDir (joinPath imagesDir rel) with
    | none => .notFound
    | some entries => .jsonList (handleListEntries rel entries).1

/-- Go handleImage: strip the route prefix, validate the path, rejecting
with 400 both on a safePath error and on the empty cleaned path, and serve
the raw source file. -/
def handleImage (urlPath : String) : HttpOutcome :=
  let rel := trimPrefixStr urlPath "/images/"
  match safePath rel with
  | .error _ => .badRequest
  | .ok clean =>
    if clean = "" then .badRequest
    else .served (joinPath imagesDir clean)

/-- Go handleThumb: strip the route prefix, validate the path (400 on error
or on the empty cleaned path), serve the artifact when it exists, and
otherwise resolve the source (404 when none resolves), generate
synchronously (500 on failure), and serve the artifact path. -/
def handleThumb (env : CodecEnv) (imgOrder vidOrder : List String) (srcFs : SrcFs)
    (fs : ThumbFs) (urlPath : String) : HttpOutcome × ThumbFs :=
  let rel := trimPrefixStr urlPath "/thumbs/"
  match safePath rel with
  | .error _ => (.badRequest, fs)
  | .ok clean =>
    if clean = "" then (.badRequest, fs)
    else
      let thumbPath := joinPath thumbsDir clean
      if thumbStat fs thumbPath then (.served thumbPath, fs)
      else
        let srcRel := webpToSource imgOrder vidOrder srcFs clean
        if srcRel = "" then (.notFound, fs)
        else
          match generateThumb env srcRel fs with
          | (.ok _, fs1, _) => (.served thumbPath, fs1)
          | (.error _, fs1, _) => (.internalError, fs1)

example :
    handleListEntries "" [⟨"a.jpg", false⟩, ⟨"b", true⟩] =
      (⟨["b"], ["a.jpg"], []⟩, ["a.jpg"]) := by decide
example :
    handleListEntries "d" [⟨".hidden", false⟩, ⟨"c.MOV", false⟩, ⟨"x.txt", false⟩] =
      (⟨[], [], ["c.MOV"]⟩, ["d/c.MOV"]) := by decide
example : handleImage "/images/" = .badRequest := by decide
example :
    handleThumb ⟨fun _ => .corrupt, true, true, true, none⟩ imageExts videoExts [] [] "/thumbs/" =
      (.badRequest, []) := by decide

/-! ## Event traces of the synchronisation structure (Admission Controller) -/

/-- Synchronisation-relevant events of one call, in the order the Go
statements execute them. -/
inductive EngineEvent
  | statThumb
  | semAcquire
  | semRelease
  | lockAcquire
  | lockRelease
  | codecWork
deriving DecidableEq

/-- Event trace of one Go generateThumb call: take the per-file mutex,
re-check existence, run doGenerateThumb only when the artifact is missing,
and release the mutex (deferred, so it also runs when the codec fails). -/
def generateThumbTrace (existsUnderLock : Bool) : List EngineEvent :=
  [.lockAcquire, .statThumb] ++
    (if existsUnderLock then [] else [.codecWork]) ++ [.lockRelease]

/-- Event trace of one Go pregenThumb background task: fast-path stat, and
when the artifact is missing, acquire a semaphore slot, run generateThumb,
and release the slot (deferred, so it runs whether generateThumb returned
an error or not; the trace does not depend on that outcome). -/
def pregenThumbTrace (thumbExists existsUnderLock : Bool) : List EngineEvent :=
  [.statThumb] ++
    (if thumbExists then []
     else [.semAcquire] ++ generateThumbTrace existsUnderLock ++ [.semRelease])

/-- Event trace of one Go handleThumb foreground request that passed path
validation: stat the artifact, and when it is missing and a source
resolves, run generateThumb inline; the worker semaphore never appears. -/
def handleThumbTrace (thumbExists sourceFound existsUnderLock : Bool) : List EngineEvent :=
  [.statThumb] ++
    (if thumbExists then []
     else if sourceFound then generateThumbTrace existsUnderLock else [])

/-! ## Interleaved semantics of concurrent generateThumb calls (Lock Registry) -/

/-- Control point of one caller racing to materialise one artifact: before
its fast-path existence check, waiting on the shared per-artifact mutex,
holding the mutex (about to re-check), or returned with success. -/
inductive CallerPc
  | start
  | lockWait
  | critical
  | done
deriving DecidableEq

/-- Shared state of n concurrent callers targeting one artifact: whether
the artifact file exists, who holds the per-artifact mutex (sync.Map
LoadOrStore hands every caller the same mutex), each caller's control
point, and how many times doGenerateThumb has run (the instrumentation the
exactly-once claim is about). -/
structure EnsureState (n : Nat) where
  thumbExists : Bool
  lockHeld : Option (Fin n)
  pc : Fin n → CallerPc
  genCount : Nat

/-- Interleaved small-step semantics of the Go check, lock, re-check,
generate sequence: a caller's fast-path stat hits (it returns) or misses
(it goes for the mutex); a free mutex is acquired; the holder's re-check
under the mutex hits (it unlocks and returns) or misses, in which case
doGenerateThumb runs to successful completion, the artifact now exists,
and the mutex is released.  The winning call completing is the claim's
premise, so the generation step is the successful one. -/
inductive EnsureStep (n : Nat) : EnsureState n → EnsureState n → Prop
  | fastHit (s : EnsureState n) (i : Fin n) :
      s.pc i = .start → s.thumbExists = true →
      EnsureStep n s ⟨s.thumbExists, s.lockHeld, Function.update s.pc i .done, s.genCount⟩
  | fastMiss (s : EnsureState n) (i : Fin n) :
      s.pc i = .start → s.thumbExists = false →
      EnsureStep n s ⟨s.thumbExists, s.lockHeld, Function.update s.pc i .lockWait, s.genCount⟩
  | acquire (s : EnsureState n) (i : Fin n) :
      s.pc i = .lockWait → s.lockHeld = none →
      EnsureStep n s ⟨s.thumbExists, some i, Function.update s.pc i .critical, s.genCount⟩
  | recheckHit (s : EnsureState n) (i : Fin n) :
      s.pc i = .critical → s.lockHeld = some i → s.thumbExists = true →
      EnsureStep n s ⟨s.thumbExists, none, Function.update s.pc i .done, s.genCount⟩
  | generate (s : EnsureState n) (i : Fin n) :
      s.pc i = .critical → s.lockHeld = some i → s.thumbExists = false →
      EnsureStep n s ⟨true, none, Function.update s.pc i .done, s.genCount + 1⟩

/-- The initial state of the race: the artifact does not exist, the mutex
is free, every caller is before its fast-path check, the pipeline has not
run. -/
def ensureInit (n : Nat) : EnsureState n := ⟨false, none, fun _ => .start, 0⟩

/-- States reachable from the initial race state by interleaving. -/
def EnsureReachable (n : Nat) (s : EnsureState n) : Prop :=
  Relation.ReflTransGen (EnsureStep n) (ensureInit n) s

/-- The inductive invariant of the race: the pipeline ran at most once, it
ran exactly once just when the artifact exists, any caller that returned
saw the artifact generated, and mutex bookkeeping is consistent (the
holder, and only the holder, is at its critical point). -/
def EnsureInv (n : Nat) (s : EnsureState n) : Prop :=
  s.genCount ≤ 1 ∧
  (s.thumbExists = true ↔ s.genCount = 1) ∧
  (∀ i, s.pc i = .done → s.genCount = 1) ∧
  (∀ i, s.lockHeld = some i → s.pc i = .critical) ∧
  (∀ i, s.pc i = .critical → s.lockHeld = some i)

/-! ## Helper lemmas about the thumbnail tree -/

theorem thumbStat_create (fs : ThumbFs) (p : String) (img : GoImage) :
    thumbStat (thumbCreate fs p img) p = true := by
  simp [thumbStat, thumbCreate]

theorem thumbStat_remove (fs : ThumbFs) (p : String) :
    thumbStat (thumbRemove fs p) p = false := by
  induction fs with
  | nil => rfl
  | cons e t ih =>
    by_cases he : (e.1 == p) = true
    · simpa [thumbRemove, List.filter_cons, he] using ih
    · have he' : (e.1 == p) = false := by simpa using he
      simp only [thumbRemove, List.filter_cons, he', Bool.not_false, if_true]
      simp only [thumbStat, List.any_cons, he', Bool.false_or]
      simp only [thumbRemove, thumbStat] at ih
      exact ih

theorem thumbRead_create (fs : ThumbFs) (p : String) (img : GoImage) :
    thumbRead (thumbCreate fs p img) p = some img := by
  simp [thumbRead, thumbCreate]

/-! ## Claim C2: thumbnail dimensions -/

/-- Rounding division written from the spec's words (round(sourceHeight *
targetWidth / sourceWidth), rounding to the nearest integer with halves
rounding up), for comparison against the source's truncating division. -/
def specRoundDiv (a b : Nat) : Nat := (2 * a + b) / (2 * b)

/-- Helper: the Go floor-at-one pattern equals a max with one. -/
theorem ifZeroOne_eq_max (x : Nat) : (if x = 0 then 1 else x) = max 1 x := by
  cases x with
  | zero => rfl
  | succ n =>
    rw [if_neg (Nat.succ_ne_zero n)]
    exact (Nat.max_eq_right (Nat.succ_le_succ (Nat.zero_le n))).symm

/-- C2, amended: successful image thumbnail generation for a source of
width W > 0 and height H writes an artifact of width thumbWidth and height
floor(H * thumbWidth / W) (Go truncating division), floored at one pixel,
and reports success. -/
theorem generateImageThumb_dims (env : CodecEnv) (srcPath thumbPath : String)
    (fs : ThumbFs) (W H : Nat)
    (hdec : env.decode srcPath = .picture W H) (hW : 0 < W)
    (hcr : env.createOk = true) (henc : env.encodeOk = true) :
    (generateImageThumb env srcPath thumbPath fs).1 = .ok () ∧
    thumbRead (generateImageThumb env srcPath thumbPath fs).2 thumbPath =
      some ⟨thumbWidth, max 1 (H * thumbWidth / W)⟩ := by
  have hW0 : ¬ W = 0 := Nat.pos_iff_ne_zero.mp hW
  simp only [generateImageThumb, hdec, hcr, henc, if_neg hW0, if_true]
  refine ⟨by trivial, ?_⟩
  rw [thumbRead_create, ifZeroOne_eq_max]

/-- C2, counterexample to the claim as stated: for a 200 by 1 source the
code writes height 1 (truncating division), while round(1 * 300 / 200) =
round(1.5) = 2; the artifact differs from the claimed dimensions. -/
theorem generateImageThumb_dims_not_round :
    thumbRead (generateImageThumb ⟨fun _ => .picture 200 1, true, true, true, none⟩
        "images/p.jpg" "thumbs/p.webp" []).2 "thumbs/p.webp" =
      some ⟨thumbWidth, 1⟩ ∧
    specRoundDiv (1 * thumbWidth) 200 = 2 ∧
    ¬ thumbRead (generateImageThumb ⟨fun _ => .picture 200 1, true, true, true, none⟩
        "images/p.jpg" "thumbs/p.webp" []).2 "thumbs/p.webp" =
      some ⟨thumbWidth, specRoundDiv (1 * thumbWidth) 200⟩ := by
  refine ⟨by decide, by decide, by decide⟩

/-- C2 witness: the amended theorem applied to a concrete 200 by 1 source. -/
theorem generateImageThumb_dims_witness :
    (generateImageThumb ⟨fun _ => .picture 200 1, true, true, true, none⟩
        "images/p.jpg" "thumbs/p.webp" []).1 = .ok () ∧
    thumbRead (generateImageThumb ⟨fun _ => .picture 200 1, true, true, true, none⟩
        "images/p.jpg" "thumbs/p.webp" []).2 "thumbs/p.webp" =
      some ⟨thumbWidth, max 1 (1 * thumbWidth / 200)⟩ :=
  generateImageThumb_dims ⟨fun _ => .picture 200 1, true, true, true, none⟩
    "images/p.jpg" "thumbs/p.webp" [] 200 1 rfl (by decide) rfl rfl

/-! ## Claim C6: failure leaves no artifact -/

/-- Helper for C6: when the artifact was absent the codec dispatch leaves
the artifact absent on every error path (decode errors touch nothing,
create errors touch nothing, encode and ffmpeg errors remove what was
written). -/
theorem doGenerateThumb_error_no_artifact (env : CodecEnv) (rel tp : String)
    (fs : ThumbFs) (hex : thumbStat fs tp = false) (e : GenError)
    (h : (doGenerateThumb env rel tp fs).1 = .error e) :
    thumbStat (doGenerateThumb env rel tp fs).2 tp = false := by
  unfold doGenerateThumb at h ⊢
  by_cases hv : videoExts.contains (lowerStr (pathExt rel)) = true
  · simp only [hv, if_true] at h ⊢
    unfold generateVideoThumb at h ⊢
    by_cases hok : env.ffmpegOk = true
    · simp [hok] at h
    · have hok' : env.ffmpegOk = false := by simpa using hok
      simp only [hok', Bool.false_eq_true, if_false]
      exact thumbStat_remove _ _
  · have hv' : videoExts.contains (lowerStr (pathExt rel)) = false := by simpa using hv
    simp only [hv', Bool.false_eq_true, if_false] at h ⊢
    unfold generateImageThumb at h ⊢
    cases hd : env.decode (joinPath imagesDir rel) with
    | absent => simp only [hd]; exact hex
    | corrupt => simp only [hd]; exact hex
    | picture w hh =>
      simp only [hd] at h ⊢
      by_cases hw : w = 0
      · simp only [hw, if_true]; exact hex
      · simp only [if_neg hw] at h ⊢
        by_cases hc : env.createOk = true
        · simp only [hc, if_true] at h ⊢
          by_cases henc : env.encodeOk = true
          · simp [henc] at h
          · have henc' : env.encodeOk = false := by simpa using henc
            simp only [henc', Bool.false_eq_true, if_false]
            exact thumbStat_remove _ _
        · have hc' : env.createOk = false := by simpa using hc
          simp only [hc', Bool.false_eq_true, if_false]
          exact hex

/-- C6: whenever a generation call fails, no artifact file remains at the
artifact path: decode errors occur before the output is created, and
encode/extraction failures remove the partially written output before the
typed error propagates. -/
theorem generateThumb_error_no_artifact (env : CodecEnv) (rel : String)
    (fs fs1 : ThumbFs) (e : GenError) (b : Bool)
    (h : generateThumb env rel fs = (.error e, fs1, b)) :
    thumbStat fs1 (thumbPathFor rel) = false := by
  unfold generateThumb at h
  by_cases hex : thumbStat fs (thumbPathFor rel) = true
  · simp [hex] at h
  · have hex' : thumbStat fs (thumbPathFor rel) = false := by simpa using hex
    simp only [hex', Bool.false_eq_true, if_false] at h
    have h1 : (doGenerateThumb env rel (thumbPathFor rel) fs).1 = .error e := by
      have := congrArg (fun x => x.1) h
      simpa using this
    have h2 : (doGenerateThumb env rel (thumbPathFor rel) fs).2 = fs1 := by
      have := congrArg (fun x => x.2.1) h
      simpa using this
    rw [← h2]
    exact doGenerateThumb_error_no_artifact env rel (thumbPathFor rel) fs hex' e h1

/-- C6 witness: a corrupt source produces the decode error and an empty
thumbnail tree. -/
theorem generateThumb_error_no_artifact_witness :
    thumbStat [] (thumbPathFor "a.jpg") = false :=
  generateThumb_error_no_artifact ⟨fun _ => .corrupt, true, true, true, none⟩
    "a.jpg" [] [] .decodeImage true (by decide)

/-! ## Claim C7: idempotence of ensure -/

/-- Helper for C7: a successful generation call leaves the artifact in
place (for the video path this uses that a successful ffmpeg run wrote its
output file). -/
theorem generateThumb_ok_exists (env : CodecEnv) (rel : String)
    (fs fs1 : ThumbFs) (b : Bool)
    (hff : env.ffmpegOk = true → env.ffmpegWrote.isSome = true)
    (h : generateThumb env rel fs = (.ok (), fs1, b)) :
    thumbStat fs1 (thumbPathFor rel) = true := by
  unfold generateThumb at h
  by_cases hex : thumbStat fs (thumbPathFor rel) = true
  · simp only [hex, if_true] at h
    have h2 : fs = fs1 := by
      have := congrArg (fun x => x.2.1) h
      simpa using this
    rw [← h2]
    exact hex
  · have hex' : thumbStat fs (thumbPathFor rel) = false := by simpa using hex
    simp only [hex', Bool.false_eq_true, if_false] at h
    have h1 : (doGenerateThumb env rel (thumbPathFor rel) fs).1 = .ok () := by
      have := congrArg (fun x => x.1) h
      simpa using this
    have h2 : (doGenerateThumb env rel (thumbPathFor rel) fs).2 = fs1 := by
      have := congrArg (fun x => x.2.1) h
      simpa using this
    rw [← h2]
    clear h h2
    unfold doGenerateThumb at h1 ⊢
    by_cases hv : videoExts.contains (lowerStr (pathExt rel)) = true
    · simp only [hv, if_true] at h1 ⊢
      unfold generateVideoThumb at h1 ⊢
      by_cases hok : env.ffmpegOk = true
      · cases hw : env.ffmpegWrote with
        | none => rw [hw] at hff; simp [hok] at hff
        | some img =>
          simp only [hok, if_true, hw]
          exact thumbStat_create _ _ _
      · have hok' : env.ffmpegOk = false := by simpa using hok
        simp [hok'] at h1
    · have hv' : videoExts.contains (lowerStr (pathExt rel)) = false := by simpa using hv
      simp only [hv', Bool.false_eq_true, if_false] at h1 ⊢
      unfold generateImageThumb at h1 ⊢
      cases hd : env.decode (joinPath imagesDir rel) with
      | absent => simp [hd] at h1
      | corrupt => simp [hd] at h1
      | picture w hh =>
        simp only [hd] at h1 ⊢
        by_cases hw : w = 0
        · simp [hw] at h1
        · simp only [if_neg hw] at h1 ⊢
          by_cases hc : env.createOk = true
          · simp only [hc, if_true] at h1 ⊢
            by_cases henc : env.encodeOk = true
            · simp only [henc, if_true]
              exact thumbStat_create _ _ _
            · have henc' : env.encodeOk = false := by simpa using henc
              simp [henc'] at h1
          · have hc' : env.createOk = false := by simpa using hc
            simp [hc'] at h1

/-- C7: ensure is idempotent.  A call that finds the artifact present
returns success at once without invoking the codec pipeline and leaves the
tree untouched; and after any successful call, every subsequent call (with
any codec environment) is such a no-op, so the artifact's final content is
the one written by the first successful generation. -/
theorem generateThumb_idempotent :
    (∀ env rel fs, thumbStat fs (thumbPathFor rel) = true →
      generateThumb env rel fs = (.ok (), fs, false)) ∧
    (∀ env env2 rel fs fs1 b,
      (env.ffmpegOk = true → env.ffmpegWrote.isSome = true) →
      generateThumb env rel fs = (.ok (), fs1, b) →
      generateThumb env2 rel fs1 = (.ok (), fs1, false)) := by
  constructor
  · intro env rel fs hex
    unfold generateThumb
    simp [hex]
  · intro env env2 rel fs fs1 b hff h
    have hex := generateThumb_ok_exists env rel fs fs1 b hff h
    unfold generateThumb
    simp [hex]

/-- C7 witness: a concrete successful generation followed by a second call
that observes the artifact and does nothing. -/
theorem generateThumb_idempotent_witness :
    generateThumb ⟨fun _ => .corrupt, false, false, true, none⟩ "p.jpg"
        [("thumbs/p.webp", ⟨300, 100⟩)] =
      (.ok (), [("thumbs/p.webp", ⟨300, 100⟩)], false) ∧
    generateThumb ⟨fun _ => .corrupt, false, false, true, none⟩ "p.jpg"
        [("thumbs/p.webp", ⟨300, 1⟩)] =
      (.ok (), [("thumbs/p.webp", ⟨300, 1⟩)], false) :=
  ⟨generateThumb_idempotent.1 ⟨fun _ => .corrupt, false, false, true, none⟩
      "p.jpg" [("thumbs/p.webp", ⟨300, 100⟩)] (by decide),
   generateThumb_idempotent.2 ⟨fun _ => .picture 200 1, true, true, false, none⟩
      ⟨fun _ => .corrupt, false, false, true, none⟩ "p.jpg" []
      [("thumbs/p.webp", ⟨300, 1⟩)] true (fun hx => by simp at hx) (by decide)⟩

/-! ## Claims C4 and C9: path validation -/

/-- Helper: a prefix occurrence is in particular a substring occurrence. -/
theorem listContainsSub_of_starts (l sub : List Char)
    (h : listStartsWith l sub = true) : listContainsSub l sub = true := by
  cases l with
  | nil => simpa [listContainsSub] using h
  | cons c cs => simp [listContainsSub, h]

/-- C4: path validation rejects every absolute input and every input whose
cleaned form escapes to a parent directory, an invalid path makes the thumb
handler answer 400 with the filesystem untouched and no resolver or
generator invoked (safePath itself is purely lexical), and the empty and
dot inputs normalize to the tree root. -/
theorem safePath_rejects_traversal :
    (∀ rel, filepathIsAbs rel = true → safePath rel = .error .invalidAbs) ∧
    (∀ rel, filepathIsAbs rel = false → strStarts (filepathClean rel) ".." = true →
      safePath rel = .error .invalidTraversal) ∧
    safePath "../../etc" = .error .invalidTraversal ∧
    safePath "" = .ok "" ∧ safePath "." = .ok "" ∧
    (∀ env io vo sfs fs p e, safePath (trimPrefixStr p "/thumbs/") = .error e →
      handleThumb env io vo sfs fs p = (.badRequest, fs)) := by
  refine ⟨?_, ?_, by decide, by decide, by decide, ?_⟩
  · intro rel ha
    unfold safePath
    simp [ha]
  · intro rel ha hs
    have hdot : ¬ filepathClean rel = "." := by
      intro hd
      rw [hd] at hs
      exact absurd hs (by decide)
    have hcon : strContains (filepathClean rel) ".." = true :=
      listContainsSub_of_starts _ _ hs
    unfold safePath
    simp only [filepathIsAbs] at ha
    simp [filepathIsAbs, ha, if_neg hdot, hcon]
  · intro env io vo sfs fs p e h
    unfold handleThumb
    simp [h]

/-- C4 witness: the theorem applied to an absolute path, the traversal
input from the spec, and a traversal thumb request. -/
theorem safePath_rejects_traversal_witness :
    safePath "/etc/passwd" = .error .invalidAbs ∧
    safePath "../x" = .error .invalidTraversal ∧
    handleThumb ⟨fun _ => .corrupt, true, true, true, none⟩ imageExts videoExts [] []
      "/thumbs/../a" = (.badRequest, []) :=
  ⟨safePath_rejects_traversal.1 "/etc/passwd" (by decide),
   safePath_rejects_traversal.2.1 "../x" (by decide) (by decide),
   safePath_rejects_traversal.2.2.2.2.2 ⟨fun _ => .corrupt, true, true, true, none⟩
     imageExts videoExts [] [] "/thumbs/../a" .invalidTraversal (by decide)⟩

/-- C9: path validation rejects every non-absolute input whose cleaned form
contains the two-character substring ".." anywhere, including legitimate
non-traversal names such as a..b.jpg and my..photos, whose cleaned forms do
not escape to a parent directory, so the rejected set is strictly larger
than the parent-escape paths. -/
theorem safePath_rejects_all_dotdot :
    (∀ rel, filepathIsAbs rel = false →
      strContains (if filepathClean rel = "." then "" else filepathClean rel) ".." = true →
      safePath rel = .error .invalidTraversal) ∧
    safePath "a..b.jpg" = .error .invalidTraversal ∧
    safePath "my..photos/x.jpg" = .error .invalidTraversal ∧
    strStarts (filepathClean "a..b.jpg") ".." = false ∧
    filepathClean "a..b.jpg" = "a..b.jpg" ∧
    strStarts (filepathClean "my..photos/x.jpg") ".." = false := by
  refine ⟨?_, by decide, by decide, by decide, by decide, by decide⟩
  intro rel ha hc
  unfold safePath
  simp only [filepathIsAbs] at ha
  simp [filepathIsAbs, ha, hc]

/-- C9 witness: the general rejection applied to the concrete legitimate
filename a..b.jpg. -/
theorem safePath_rejects_all_dotdot_witness :
    safePath "a..b.jpg" = .error .invalidTraversal :=
  safePath_rejects_all_dotdot.1 "a..b.jpg" (by decide) (by decide)

/-! ## Claim C10: the root path at each endpoint -/

/-- C10: the thumb and image handlers answer 400 for the empty (root)
relative path even though safePath itself accepts the empty input and
normalizes it to the tree root, while the listing endpoint accepts the
root path and answers with the listing of the media root. -/
theorem root_path_gate :
    (∀ env io vo sfs fs, handleThumb env io vo sfs fs "/thumbs/" = (.badRequest, fs)) ∧
    handleImage "/images/" = .badRequest ∧
    safePath "" = .ok "" ∧
    (∀ readDir entries, readDir (joinPath imagesDir "") = some entries →
      handleList readDir "" = .jsonList (handleListEntries "" entries).1) := by
  refine ⟨?_, by decide, by decide, ?_⟩
  · intro env io vo sfs fs
    rfl
  · intro readDir entries h
    unfold handleList
    rw [show safePath "" = .ok "" from rfl]
    simp [h]

/-- C10 witness: the theorem applied to a concrete environment and a
concrete one-entry media root. -/
theorem root_path_gate_witness :
    handleThumb ⟨fun _ => .corrupt, true, true, true, none⟩ imageExts videoExts [] []
      "/thumbs/" = (.badRequest, []) ∧
    handleList (fun _ => some [⟨"a.jpg", false⟩]) "" =
      .jsonList (handleListEntries "" [⟨"a.jpg", false⟩]).1 :=
  ⟨root_path_gate.1 ⟨fun _ => .corrupt, true, true, true, none⟩ imageExts videoExts [] [],
   root_path_gate.2.2.2 (fun _ => some [⟨"a.jpg", false⟩]) [⟨"a.jpg", false⟩] rfl⟩

/-! ## Claim C8: the listing loop -/

/-- A listing entry is visible when its name is not dot-prefixed (the Go
loop skips the others). -/
def entryVisible (e : DirEntry) : Bool := !(strStarts e.name ".")

/-- A visible non-directory entry whose lower-cased extension is a known
image extension. -/
def entryIsImage (e : DirEntry) : Bool :=
  entryVisible e && !e.isDir && imageExts.contains (lowerStr (pathExt e.name))

/-- A visible non-directory entry whose lower-cased extension is a known
video extension. -/
def entryIsVideo (e : DirEntry) : Bool :=
  entryVisible e && !e.isDir && videoExts.contains (lowerStr (pathExt e.name))

/-- Helper: no extension is both an image and a video extension, so the Go
else-if chain and independent filters agree. -/
theorem image_video_disjoint : ∀ s ∈ imageExts, videoExts.contains s = false := by
  decide

/-- C8: over one directory level the listing loop lists exactly the visible
subdirectories under directories, the visible image files under images, the
visible video files under videos (by case-insensitive extension), and
schedules exactly one background generation target per visible image or
video file (its path joined onto the listed directory) and none for
directories or other files. -/
theorem handleList_characterization (rel : String) (entries : List DirEntry) :
    (handleListEntries rel entries).1.directories =
      (entries.filter (fun e => entryVisible e && e.isDir)).map DirEntry.name ∧
    (handleListEntries rel entries).1.images =
      (entries.filter entryIsImage).map DirEntry.name ∧
    (handleListEntries rel entries).1.videos =
      (entries.filter entryIsVideo).map DirEntry.name ∧
    (handleListEntries rel entries).2 =
      (entries.filter (fun e => entryIsImage e || entryIsVideo e)).map
        (fun e => joinPath rel e.name) := by
  induction entries with
  | nil => exact ⟨rfl, rfl, rfl, rfl⟩
  | cons e rest ih =>
    obtain ⟨ih1, ih2, ih3, ih4⟩ := ih
    by_cases hdot : strStarts e.name "." = true
    · have hv : entryVisible e = false := by simp [entryVisible, hdot]
      simp [handleListEntries, hdot, List.filter_cons, hv, entryIsImage, entryIsVideo,
        ih1, ih2, ih3, ih4]
    · have hv : entryVisible e = true := by
        simp only [entryVisible]
        simp only [Bool.not_eq_true] at hdot
        simp [hdot]
      by_cases hdir : e.isDir = true
      · have hni : entryIsImage e = false := by simp [entryIsImage, hdir]
        have hnv : entryIsVideo e = false := by simp [entryIsVideo, hdir]
        simp [handleListEntries, hdot, hdir, List.filter_cons, hv, hni, hnv,
          ih1, ih2, ih3, ih4]
      · have hdir' : e.isDir = false := by simpa using hdir
        by_cases himg : imageExts.contains (lowerStr (pathExt e.name)) = true
        · have himgMem : lowerStr (pathExt e.name) ∈ imageExts := by simpa using himg
          have hvid : videoExts.contains (lowerStr (pathExt e.name)) = false :=
            image_video_disjoint _ himgMem
          have hvidNot : lowerStr (pathExt e.name) ∉ videoExts := by simpa using hvid
          have hi : entryIsImage e = true := by simp [entryIsImage, hv, hdir', himgMem]
          have hnv : entryIsVideo e = false := by simp [entryIsVideo, hvidNot]
          simp [handleListEntries, hdot, hdir', himgMem, List.filter_cons, hv, hi, hnv,
            ih1, ih2, ih3, ih4]
        · have himgNot : lowerStr (pathExt e.name) ∉ imageExts := by simpa using himg
          by_cases hvid : videoExts.contains (lowerStr (pathExt e.name)) = true
          · have hvidMem : lowerStr (pathExt e.name) ∈ videoExts := by simpa using hvid
            have hni : entryIsImage e = false := by simp [entryIsImage, himgNot]
            have hvv : entryIsVideo e = true := by simp [entryIsVideo, hv, hdir', hvidMem]
            simp [handleListEntries, hdot, hdir', himgNot, hvidMem, List.filter_cons, hv,
              hni, hvv, ih1, ih2, ih3, ih4]
          · have hvidNot : lowerStr (pathExt e.name) ∉ videoExts := by simpa using hvid
            have hni : entryIsImage e = false := by simp [entryIsImage, himgNot]
            have hnv : entryIsVideo e = false := by simp [entryIsVideo, hvidNot]
            simp [handleListEntries, hdot, hdir', himgNot, hvidNot, List.filter_cons,
              hni, hnv, ih1, ih2, ih3, ih4]

/-! ## Claim C3: the webpToSource resolver -/

/-- Helper: a successful probe returns an existing candidate formed from
one of the probed extensions in lower- or upper-case form. -/
theorem probeList_sound (fs : SrcFs) (base : String) (order : List String)
    (c : String) (h : probeList fs base order = some c) :
    srcStat fs c = true ∧
    ∃ e, e ∈ order ∧ (c = base ++ e ∨ c = base ++ upperStr e) := by
  induction order with
  | nil => simp [probeList] at h
  | cons a rest ih =>
    simp only [probeList] at h
    cases hp : probeExt fs base a with
    | some c0 =>
      rw [hp] at h
      have hc : c0 = c := by simpa using h
      subst hc
      unfold probeExt at hp
      by_cases h1 : srcStat fs (base ++ a) = true
      · simp only [h1, if_true] at hp
        have : base ++ a = c0 := by simpa using hp
        subst this
        exact ⟨h1, a, List.mem_cons_self a rest, Or.inl rfl⟩
      · have h1' : srcStat fs (base ++ a) = false := by simpa using h1
        simp only [h1', Bool.false_eq_true, if_false] at hp
        by_cases h2 : srcStat fs (base ++ upperStr a) = true
        · simp only [h2, if_true] at hp
          have : base ++ upperStr a = c0 := by simpa using hp
          subst this
          exact ⟨h2, a, List.mem_cons_self a rest, Or.inr rfl⟩
        · have h2' : srcStat fs (base ++ upperStr a) = false := by simpa using h2
          simp [h1', h2'] at hp
    | none =>
      rw [hp] at h
      obtain ⟨hs, e, hmem, hc⟩ := ih h
      exact ⟨hs, e, List.mem_cons_of_mem a hmem, hc⟩

/-- Helper: an extension whose lower- or upper-case candidate exists makes
its own probe succeed. -/
theorem probeExt_of_hit (fs : SrcFs) (base e : String)
    (h : hitExt fs base e = true) : ∃ c, probeExt fs base e = some c := by
  unfold hitExt at h
  unfold probeExt
  by_cases h1 : srcStat fs (base ++ e) = true
  · exact ⟨base ++ e, by simp [h1]⟩
  · have h1' : srcStat fs (base ++ e) = false := by simpa using h1
    rw [h1', Bool.false_or] at h
    exact ⟨base ++ upperStr e, by simp [h1', h]⟩

/-- Helper: a probe loop over an order containing a hitting extension
succeeds. -/
theorem probeList_complete (fs : SrcFs) (base : String) (order : List String)
    (h : ∃ e, e ∈ order ∧ hitExt fs base e = true) :
    ∃ c, probeList fs base order = some c := by
  induction order with
  | nil => simp at h
  | cons a rest ih =>
    simp only [probeList]
    cases hp : probeExt fs base a with
    | some c0 => exact ⟨c0, rfl⟩
    | none =>
      obtain ⟨e, hmem, hhit⟩ := h
      rcases List.mem_cons.mp hmem with he | he
      · subst he
        obtain ⟨c, hc⟩ := probeExt_of_hit fs base e hhit
        rw [hc] at hp
        cases hp
      · exact ih ⟨e, he, hhit⟩

/-- Helper: when every probe in the order either misses or returns the one
candidate c, and some probe does not miss, the loop returns c. -/
theorem probeList_unique (fs : SrcFs) (base c : String) (order : List String)
    (hall : ∀ e ∈ order, probeExt fs base e = none ∨ probeExt fs base e = some c)
    (hsome : ∃ e, e ∈ order ∧ probeExt fs base e ≠ none) :
    probeList fs base order = some c := by
  induction order with
  | nil => simp at hsome
  | cons a rest ih =>
    simp only [probeList]
    cases hp : probeExt fs base a with
    | some c0 =>
      rcases hall a (List.mem_cons_self a rest) with h | h
      · rw [hp] at h; cases h
      · rw [hp] at h
        simpa using h
    | none =>
      apply ih
      · intro e he
        exact hall e (List.mem_cons_of_mem a he)
      · obtain ⟨e, hmem, hne⟩ := hsome
        rcases List.mem_cons.mp hmem with he | he
        · subst he; exact absurd hp hne
        · exact ⟨e, he, hne⟩

/-- Helper: every known extension is a nonempty string. -/
theorem ext_ne_empty : ∀ e ∈ imageExts ++ videoExts, ¬ e = "" := by decide

/-- Helper: upper-casing keeps a string nonempty. -/
theorem upperStr_ne_empty (e : String) (h : ¬ e = "") : ¬ upperStr e = "" := by
  intro hu
  apply h
  cases e with
  | mk data =>
    cases data with
    | nil => rfl
    | cons c cs => exact absurd (congrArg String.data hu) (by simp [upperStr])

/-- Helper: appending a nonempty string yields a nonempty string. -/
theorem append_ne_empty (a b : String) (hb : ¬ b = "") : ¬ (a ++ b = "") := by
  intro h
  apply hb
  have hd : a.data ++ b.data = ([] : List Char) := by
    have := congrArg String.data h
    simpa using this
  have hb2 : b.data = [] := (List.append_eq_nil.mp hd).2
  cases b with
  | mk data => simp at hb2; simp [hb2]

/-- C3, amended: the resolver substitutes candidate extensions trying every
known image extension (in whatever order the map range yields, unspecified
within the class) before every known video extension, probing the
lower-case and then the upper-case form of each, and returns the first
candidate that exists on the source tree; in particular a thumb request for
photo.webp resolves to photo.JPG when only photo.JPG exists. -/
theorem webpToSource_amended (io vo : List String) (fs : SrcFs) (rel : String)
    (hio : io.Perm imageExts) (hvo : vo.Perm videoExts) :
    (∀ c, webpToSource io vo fs rel = c → ¬ c = "" → srcStat fs c = true ∧
      ∃ e, e ∈ imageExts ++ videoExts ∧
        (c = sourceBase rel ++ e ∨ c = sourceBase rel ++ upperStr e)) ∧
    ((∃ e, e ∈ imageExts ++ videoExts ∧ hitExt fs (sourceBase rel) e = true) →
      ¬ webpToSource io vo fs rel = "") ∧
    ((∃ e, e ∈ imageExts ∧ hitExt fs (sourceBase rel) e = true) →
      ∃ e, e ∈ imageExts ∧
        (webpToSource io vo fs rel = sourceBase rel ++ e ∨
         webpToSource io vo fs rel = sourceBase rel ++ upperStr e)) ∧
    webpToSource io vo ["photo.JPG"] "photo.webp" = "photo.JPG" := by
  refine ⟨?_, ?_, ?_, ?_⟩
  · intro c hc hne
    cases h1 : probeList fs (sourceBase rel) io with
    | some c0 =>
      simp only [webpToSource, h1] at hc
      subst hc
      obtain ⟨hs, e, hmem, hor⟩ := probeList_sound fs (sourceBase rel) io c0 h1
      exact ⟨hs, e, List.mem_append.mpr (Or.inl (hio.mem_iff.mp hmem)), hor⟩
    | none =>
      cases h2 : probeList fs (sourceBase rel) vo with
      | some c0 =>
        simp only [webpToSource, h1, h2] at hc
        subst hc
        obtain ⟨hs, e, hmem, hor⟩ := probeList_sound fs (sourceBase rel) vo c0 h2
        exact ⟨hs, e, List.mem_append.mpr (Or.inr (hvo.mem_iff.mp hmem)), hor⟩
      | none =>
        simp only [webpToSource, h1, h2] at hc
        exact absurd hc.symm hne
  · rintro ⟨e, hmem, hhit⟩ h0
    rcases List.mem_append.mp hmem with him | hvm
    · obtain ⟨c, hc⟩ := probeList_complete fs (sourceBase rel) io
        ⟨e, hio.mem_iff.mpr him, hhit⟩
      simp only [webpToSource, hc] at h0
      obtain ⟨hs, e2, hmem2, hor⟩ := probeList_sound fs (sourceBase rel) io c hc
      have hne : ¬ e2 = "" :=
        ext_ne_empty e2 (List.mem_append.mpr (Or.inl (hio.mem_iff.mp hmem2)))
      rcases hor with h | h
      · rw [h] at h0
        exact append_ne_empty _ _ hne h0
      · rw [h] at h0
        exact append_ne_empty _ _ (upperStr_ne_empty e2 hne) h0
    · cases h1 : probeList fs (sourceBase rel) io with
      | some c0 =>
        simp only [webpToSource, h1] at h0
        obtain ⟨hs, e2, hmem2, hor⟩ := probeList_sound fs (sourceBase rel) io c0 h1
        have hne : ¬ e2 = "" :=
          ext_ne_empty e2 (List.mem_append.mpr (Or.inl (hio.mem_iff.mp hmem2)))
        rcases hor with h | h
        · rw [h] at h0
          exact append_ne_empty _ _ hne h0
        · rw [h] at h0
          exact append_ne_empty _ _ (upperStr_ne_empty e2 hne) h0
      | none =>
        obtain ⟨c, hc⟩ := probeList_complete fs (sourceBase rel) vo
          ⟨e, hvo.mem_iff.mpr hvm, hhit⟩
        simp only [webpToSource, h1, hc] at h0
        obtain ⟨hs, e2, hmem2, hor⟩ := probeList_sound fs (sourceBase rel) vo c hc
        have hne : ¬ e2 = "" :=
          ext_ne_empty e2 (List.mem_append.mpr (Or.inr (hvo.mem_iff.mp hmem2)))
        rcases hor with h | h
        · rw [h] at h0
          exact append_ne_empty _ _ hne h0
        · rw [h] at h0
          exact append_ne_empty _ _ (upperStr_ne_empty e2 hne) h0
  · rintro ⟨e, hmem, hhit⟩
    obtain ⟨c, hc⟩ := probeList_complete fs (sourceBase rel) io
      ⟨e, hio.mem_iff.mpr hmem, hhit⟩
    obtain ⟨hs, e2, hmem2, hor⟩ := probeList_sound fs (sourceBase rel) io c hc
    refine ⟨e2, hio.mem_iff.mp hmem2, ?_⟩
    have hr : webpToSource io vo fs rel = c := by
      simp only [webpToSource, hc]
    rw [hr]
    exact hor
  · have hdec : ∀ e ∈ imageExts,
        probeExt ["photo.JPG"] "photo" e = none ∨
        probeExt ["photo.JPG"] "photo" e = some "photo.JPG" := by decide
    have hall : ∀ e ∈ io,
        probeExt ["photo.JPG"] "photo" e = none ∨
        probeExt ["photo.JPG"] "photo" e = some "photo.JPG" :=
      fun e he => hdec e (hio.mem_iff.mp he)
    have hsome : ∃ e, e ∈ io ∧ ¬ probeExt ["photo.JPG"] "photo" e = none :=
      ⟨".jpg", hio.mem_iff.mpr (by decide), by decide⟩
    have hp := probeList_unique ["photo.JPG"] "photo" "photo.JPG" io hall hsome
    have hbase : sourceBase "photo.webp" = "photo" := by decide
    simp only [webpToSource, hbase, hp]

/-- C3, counterexample to "fixed, deterministic priority order": with both
photo.jpg and photo.png present, two legitimate map-range orders of the
image extension set make the resolver return different sources, so the
probe order is not fixed (the spec itself flags the unordered-map probe as
nondeterministic within each class). -/
theorem webpToSource_order_dependent :
    ([".jpg", ".jpeg", ".png", ".gif", ".webp"] : List String).Perm imageExts ∧
    ([".png", ".jpg", ".jpeg", ".gif", ".webp"] : List String).Perm imageExts ∧
    webpToSource [".jpg", ".jpeg", ".png", ".gif", ".webp"] videoExts
      ["photo.jpg", "photo.png"] "photo.webp" = "photo.jpg" ∧
    webpToSource [".png", ".jpg", ".jpeg", ".gif", ".webp"] videoExts
      ["photo.jpg", "photo.png"] "photo.webp" = "photo.png" ∧
    ¬ ("photo.jpg" : String) = "photo.png" := by
  refine ⟨by decide, by decide, by decide, by decide, by decide⟩

/-- C3 witness: the amended theorem applied to the identity orders and the
upper-case-only source tree. -/
theorem webpToSource_amended_witness :
    webpToSource imageExts videoExts ["photo.JPG"] "photo.webp" = "photo.JPG" :=
  (webpToSource_amended imageExts videoExts ["photo.JPG"] "photo.webp"
    (List.Perm.refl _) (List.Perm.refl _)).2.2.2

/-! ## Claim C5: admission-semaphore discipline -/

/-- C5: the worker semaphore has fixed capacity four; every background
pregeneration trace acquires a slot before any codec work and holds it
until after the work, with releases balancing acquisitions whatever the
codec outcome (the trace does not depend on it); and no foreground
request-path trace ever touches the semaphore. -/
theorem admission_semaphore_discipline :
    maxWorkers = 4 ∧
    (∀ te ea sf : Bool,
      (EngineEvent.codecWork ∈ pregenThumbTrace te ea →
        (pregenThumbTrace te ea).indexOf EngineEvent.semAcquire <
          (pregenThumbTrace te ea).indexOf EngineEvent.codecWork) ∧
      (pregenThumbTrace te ea).count EngineEvent.semRelease =
        (pregenThumbTrace te ea).count EngineEvent.semAcquire ∧
      (EngineEvent.codecWork ∈ pregenThumbTrace te ea →
        (pregenThumbTrace te ea).indexOf EngineEvent.codecWork <
          (pregenThumbTrace te ea).indexOf EngineEvent.semRelease) ∧
      EngineEvent.semAcquire ∉ handleThumbTrace te sf ea ∧
      EngineEvent.semRelease ∉ handleThumbTrace te sf ea) :=
  ⟨rfl, by decide⟩

/-- C5 witness: the semaphore ordering applied to the concrete background
trace that actually generates. -/
theorem admission_semaphore_discipline_witness :
    (pregenThumbTrace false false).indexOf EngineEvent.semAcquire <
      (pregenThumbTrace false false).indexOf EngineEvent.codecWork :=
  (admission_semaphore_discipline.2 false false false).1 (by decide)

/-! ## Claim C1: exactly-once generation under concurrency -/

/-- Helper: the race invariant holds initially. -/
theorem ensureInv_init (n : Nat) : EnsureInv n (ensureInit n) := by
  refine ⟨Nat.zero_le 1, by simp [ensureInit], ?_, ?_, ?_⟩
  · intro i hi
    simp [ensureInit] at hi
  · intro i hl
    simp [ensureInit] at hl
  · intro i hi
    simp [ensureInit] at hi

/-- Helper: the race invariant is preserved by every interleaved step. -/
theorem ensureInv_step (n : Nat) (s t : EnsureState n)
    (hs : EnsureInv n s) (h : EnsureStep n s t) : EnsureInv n t := by
  obtain ⟨h1, h2, h3, h4, h5⟩ := hs
  cases h with
  | fastHit i hpc hex =>
    dsimp only [EnsureInv]
    refine ⟨h1, h2, ?_, ?_, ?_⟩
    · intro j hj
      by_cases hij : j = i
      · exact h2.mp hex
      · rw [Function.update_noteq hij] at hj
        exact h3 j hj
    · intro j hl
      have hcr := h4 j hl
      have hij : ¬ j = i := by
        intro hh
        rw [hh, hpc] at hcr
        simp at hcr
      rw [Function.update_noteq hij]
      exact hcr
    · intro j hj
      by_cases hij : j = i
      · subst hij
        rw [Function.update_same] at hj
        simp at hj
      · rw [Function.update_noteq hij] at hj
        exact h5 j hj
  | fastMiss i hpc hex =>
    dsimp only [EnsureInv]
    refine ⟨h1, h2, ?_, ?_, ?_⟩
    · intro j hj
      by_cases hij : j = i
      · subst hij
        rw [Function.update_same] at hj
        simp at hj
      · rw [Function.update_noteq hij] at hj
        exact h3 j hj
    · intro j hl
      have hcr := h4 j hl
      have hij : ¬ j = i := by
        intro hh
        rw [hh, hpc] at hcr
        simp at hcr
      rw [Function.update_noteq hij]
      exact hcr
    · intro j hj
      by_cases hij : j = i
      · subst hij
        rw [Function.update_same] at hj
        simp at hj
      · rw [Function.update_noteq hij] at hj
        exact h5 j hj
  | acquire i hpc hlock =>
    dsimp only [EnsureInv]
    refine ⟨h1, h2, ?_, ?_, ?_⟩
    · intro j hj
      by_cases hij : j = i
      · subst hij
        rw [Function.update_same] at hj
        simp at hj
      · rw [Function.update_noteq hij] at hj
        exact h3 j hj
    · intro j hl
      injection hl with hij
      subst hij
      rw [Function.update_same]
    · intro j hj
      by_cases hij : j = i
      · subst hij
        rfl
      · rw [Function.update_noteq hij] at hj
        have := h5 j hj
        rw [hlock] at this
        simp at this
  | recheckHit i hpc hlock hex =>
    dsimp only [EnsureInv]
    refine ⟨h1, h2, ?_, ?_, ?_⟩
    · intro j hj
      by_cases hij : j = i
      · exact h2.mp hex
      · rw [Function.update_noteq hij] at hj
        exact h3 j hj
    · intro j hl
      simp at hl
    · intro j hj
      by_cases hij : j = i
      · subst hij
        rw [Function.update_same] at hj
        simp at hj
      · rw [Function.update_noteq hij] at hj
        have := h5 j hj
        rw [hlock] at this
        injection this with hij2
        exact absurd hij2.symm hij
  | generate i hpc hlock hex =>
    dsimp only [EnsureInv]
    have hg1 : ¬ s.genCount = 1 := by
      intro hgg
      rw [h2.mpr hgg] at hex
      simp at hex
    have hg : s.genCount = 0 := by omega
    refine ⟨by omega, by simp [hg], ?_, ?_, ?_⟩
    · intro j hj
      omega
    · intro j hl
      simp at hl
    · intro j hj
      by_cases hij : j = i
      · subst hij
        rw [Function.update_same] at hj
        simp at hj
      · rw [Function.update_noteq hij] at hj
        have := h5 j hj
        rw [hlock] at this
        injection this with hij2
        exact absurd hij2.symm hij

/-- Helper: the race invariant holds in every reachable state. -/
theorem ensureInv_reachable (n : Nat) (s : EnsureState n)
    (h : EnsureReachable n s) : EnsureInv n s := by
  induction h with
  | refl => exact ensureInv_init n
  | tail hab hbc ih => exact ensureInv_step n _ _ ih hbc

/-- C1: for n concurrent ensure calls on the same not-yet-existing
artifact, in every reachable state the expensive pipeline has run at most
once; when every caller has returned (and there is at least one) it has run
exactly once and the artifact exists, every caller having returned success;
and no reachable state with an unfinished caller is stuck, so every call
eventually returns once the winner completes. -/
theorem generateThumb_pipeline_exactly_once (n : Nat) (s : EnsureState n)
    (h : EnsureReachable n s) :
    s.genCount ≤ 1 ∧
    ((∀ i, s.pc i = .done) → 0 < n → s.genCount = 1 ∧ s.thumbExists = true) ∧
    ((∃ i, ¬ s.pc i = .done) → ∃ t, EnsureStep n s t) := by
  obtain ⟨h1, h2, h3, h4, h5⟩ := ensureInv_reachable n s h
  refine ⟨h1, ?_, ?_⟩
  · intro hall hn
    have hg := h3 ⟨0, hn⟩ (hall ⟨0, hn⟩)
    exact ⟨hg, h2.mpr hg⟩
  · rintro ⟨i, hi⟩
    cases hpc : s.pc i with
    | start =>
      cases hex : s.thumbExists with
      | true => exact ⟨_, EnsureStep.fastHit s i hpc hex⟩
      | false => exact ⟨_, EnsureStep.fastMiss s i hpc hex⟩
    | lockWait =>
      cases hl : s.lockHeld with
      | none => exact ⟨_, EnsureStep.acquire s i hpc hl⟩
      | some j =>
        have hj : s.pc j = .critical := h4 j hl
        cases hex : s.thumbExists with
        | true => exact ⟨_, EnsureStep.recheckHit s j hj hl hex⟩
        | false => exact ⟨_, EnsureStep.generate s j hj hl hex⟩
    | critical =>
      have hl := h5 i hpc
      cases hex : s.thumbExists with
      | true => exact ⟨_, EnsureStep.recheckHit s i hpc hl hex⟩
      | false => exact ⟨_, EnsureStep.generate s i hpc hl hex⟩
    | done => exact absurd hpc hi

/-- C1 witness: a concrete complete execution of one caller (fast-path
miss, lock acquisition, generation) in which the pipeline ran exactly
once. -/
theorem generateThumb_pipeline_exactly_once_witness :
    (⟨true, none,
      Function.update (Function.update (Function.update
        (fun _ => CallerPc.start) (0 : Fin 1) CallerPc.lockWait)
        (0 : Fin 1) CallerPc.critical) (0 : Fin 1) CallerPc.done,
      0 + 1⟩ : EnsureState 1).genCount = 1 ∧
    (⟨true, none,
      Function.update (Function.update (Function.update
        (fun _ => CallerPc.start) (0 : Fin 1) CallerPc.lockWait)
        (0 : Fin 1) CallerPc.critical) (0 : Fin 1) CallerPc.done,
      0 + 1⟩ : EnsureState 1).thumbExists = true := by
  have h1 : EnsureStep 1 (ensureInit 1)
      ⟨false, none,
        Function.update (fun _ => CallerPc.start) (0 : Fin 1) CallerPc.lockWait, 0⟩ :=
    EnsureStep.fastMiss (ensureInit 1) 0 rfl rfl
  have h2 : EnsureStep 1
      ⟨false, none,
        Function.update (fun _ => CallerPc.start) (0 : Fin 1) CallerPc.lockWait, 0⟩
      ⟨false, some 0,
        Function.update (Function.update (fun _ => CallerPc.start) (0 : Fin 1)
          CallerPc.lockWait) (0 : Fin 1) CallerPc.critical, 0⟩ :=
    EnsureStep.acquire _ 0 (by simp [Function.update]) rfl
  have h3 : EnsureStep 1
      ⟨false, some 0,
        Function.update (Function.update (fun _ => CallerPc.start) (0 : Fin 1)
          CallerPc.lockWait) (0 : Fin 1) CallerPc.critical, 0⟩
      ⟨true, none,
        Function.update (Function.update (Function.update
          (fun _ => CallerPc.start) (0 : Fin 1) CallerPc.lockWait)
          (0 : Fin 1) CallerPc.critical) (0 : Fin 1) CallerPc.done, 0 + 1⟩ :=
    EnsureStep.generate _ 0 (by simp [Function.update]) rfl rfl
  have hreach : EnsureReachable 1
      ⟨true, none,
        Function.update (Function.update (Function.update
          (fun _ => CallerPc.start) (0 : Fin 1) CallerPc.lockWait)
          (0 : Fin 1) CallerPc.critical) (0 : Fin 1) CallerPc.done, 0 + 1⟩ :=
    Relation.ReflTransGen.head h1 (Relation.ReflTransGen.head h2
      (Relation.ReflTransGen.single h3))
  exact (generateThumb_pipeline_exactly_once 1 _ hreach).2.1
    (by intro i; fin_cases i; simp [Function.update]) (by decide)
